import Mathlib

/-!
Shallow embedding of the core of the `councilof-ai-tc260` repository:
the ensemble verification aggregator (`src/tc260/council.py`), the
hash-linked audit ledger (`src/tc260/blockchain.py`) and the feedback
statistics (`src/tc260/rlmai.py`).

Python floats are modelled as exact rationals, Python dicts collected
during fan-in as association lists, and the SHA-256-of-JSON digest as an
abstract function parameter `hashFn`; everything else is translated
definition by definition from the source.
-/

namespace TC260

/-! ## Council of 32 — data model (`src/tc260/council.py`) -/

/-- The `Vote` enum of `council.py`: `PASS`, `FAIL`, `WARNING`. -/
inductive Vote where
  | PASS
  | FAIL
  | WARNING
deriving DecidableEq, Repr

/-- The analysis dict produced by `CouncilMember.analyze` /
`CouncilMember._parse_response`: keys `vote`, `confidence`, `reasoning`,
`risk_score`, `findings`.  The wall-clock `processing_time_ms` key is not
modelled. -/
structure VoteData where
  vote : Vote
  confidence : ℚ
  reasoning : String
  risk_score : ℚ
  findings : List String
deriving DecidableEq, Repr

/-- The state accumulated by the loop over `votes.items()` in
`CouncilOf32._aggregate_votes`. -/
structure AggState where
  total_weight : ℚ
  weighted_sum : ℚ
  risk_scores : List ℚ
  fail_count : ℕ
  warning_count : ℕ
  pass_count : ℕ
deriving DecidableEq, Repr

/-- The `vote_counts` sub-dict of the aggregation result. -/
structure VoteCounts where
  fail : ℕ
  warning : ℕ
  pass : ℕ
deriving DecidableEq, Repr

/-- The dict returned by `CouncilOf32._aggregate_votes` (and by
`CouncilOf32.verify`, whose extra `processing_time_ms` key is not
modelled).  In the empty-votes early return the Python dict carries no
`vote_counts` key; here that field is `⟨0, 0, 0⟩`. -/
structure AggResult where
  overall_vote : Vote
  overall_confidence : ℚ
  overall_risk_score : ℚ
  votes : List (String × VoteData)
  summary : String
  vote_counts : VoteCounts
deriving DecidableEq, Repr

/-- One iteration of the vote loop in `_aggregate_votes`: push the risk
score, add the signed confidence to `weighted_sum` and bump the matching
counter, then add the confidence to `total_weight`. -/
def aggStep (s : AggState) (p : String × VoteData) : AggState :=
  let v := p.2
  let s1 : AggState := { s with risk_scores := s.risk_scores ++ [v.risk_score] }
  let s2 : AggState :=
    match v.vote with
    | Vote.FAIL =>
        { s1 with weighted_sum := s1.weighted_sum + (-1) * v.confidence,
                  fail_count := s1.fail_count + 1 }
    | Vote.PASS =>
        { s1 with weighted_sum := s1.weighted_sum + 1 * v.confidence,
                  pass_count := s1.pass_count + 1 }
    | Vote.WARNING =>
        { s1 with warning_count := s1.warning_count + 1 }
  { s2 with total_weight := s2.total_weight + v.confidence }

/-- The summary string built at the end of `_aggregate_votes`.  The
one-decimal float formatting of the risk score is abstracted to
`toString`. -/
def mkSummary (fail_count warning_count pass_count : ℕ) (overall_risk_score : ℚ)
    (overall_vote : Vote) : String :=
  let base := "Council verdict: " ++ toString fail_count ++ " FAIL, "
      ++ toString warning_count ++ " WARNING, " ++ toString pass_count ++ " PASS. "
      ++ "Overall risk score: " ++ toString overall_risk_score ++ "/100. "
  match overall_vote with
  | Vote.FAIL => base ++ "Content failed safety verification."
  | Vote.PASS => base ++ "Content passed safety verification."
  | Vote.WARNING => base ++ "Content requires human review."

/-- `CouncilOf32._aggregate_votes`: weighted reduction of the collected
votes.  The Python dict of votes is modelled as an association list. -/
def aggregate_votes (votes : List (String × VoteData)) : AggResult :=
  if votes = [] then
    { overall_vote := Vote.WARNING
      overall_confidence := 0
      overall_risk_score := 50
      votes := []
      summary := "No votes received"
      vote_counts := ⟨0, 0, 0⟩ }
  else
    let st := votes.foldl aggStep ⟨0, 0, [], 0, 0, 0⟩
    let weighted_average : ℚ := if st.total_weight > 0 then st.weighted_sum / st.total_weight else 0
    let overall_risk_score : ℚ :=
      if st.risk_scores ≠ [] then st.risk_scores.sum / (st.risk_scores.length : ℚ) else 50
    let overall_confidence : ℚ :=
      if votes ≠ [] then st.total_weight / (votes.length : ℚ) else 0
    let overall_vote : Vote :=
      if weighted_average < -(0.3 : ℚ) ∨ (st.fail_count : ℚ) > (votes.length : ℚ) * (0.25 : ℚ) then
        Vote.FAIL
      else if weighted_average > (0.3 : ℚ) ∧ st.fail_count = 0 then
        Vote.PASS
      else
        Vote.WARNING
    { overall_vote := overall_vote
      overall_confidence := overall_confidence
      overall_risk_score := overall_risk_score
      votes := votes
      summary := mkSummary st.fail_count st.warning_count st.pass_count overall_risk_score overall_vote
      vote_counts := ⟨st.fail_count, st.warning_count, st.pass_count⟩ }

/-! Closed forms for the loop state, used to reason about the fold. -/

/-- Sum of the confidences of a vote list (the `total_weight` the loop
computes). -/
def confSum (votes : List (String × VoteData)) : ℚ :=
  (votes.map fun p => p.2.confidence).sum

/-- The sign a verdict contributes to `weighted_sum`. -/
def voteSign : Vote → ℚ
  | Vote.FAIL => -1
  | Vote.PASS => 1
  | Vote.WARNING => 0

/-- Signed confidence sum (the `weighted_sum` the loop computes). -/
def signedSum (votes : List (String × VoteData)) : ℚ :=
  (votes.map fun p => voteSign p.2.vote * p.2.confidence).sum

/-- The risk scores in input order (the `risk_scores` list the loop
builds). -/
def riskList (votes : List (String × VoteData)) : List ℚ :=
  votes.map fun p => p.2.risk_score

/-- Number of FAIL votes. -/
def nFail (votes : List (String × VoteData)) : ℕ :=
  votes.countP fun p => p.2.vote == Vote.FAIL

/-- Number of WARNING votes. -/
def nWarn (votes : List (String × VoteData)) : ℕ :=
  votes.countP fun p => p.2.vote == Vote.WARNING

/-- Number of PASS votes. -/
def nPass (votes : List (String × VoteData)) : ℕ :=
  votes.countP fun p => p.2.vote == Vote.PASS

/-! ## Reference aggregation, written from the words of the spec
(section 4.1, steps 1-5, and the no-votes clause). -/

/-- The overall fields of a Verdict as the spec defines them. -/
structure SpecVerdict where
  verdict : Vote
  confidence : ℚ
  riskScore : ℚ
deriving DecidableEq, Repr

/-- Reference reduction from the spec text: `totalWeight` is the sum of
confidences; `weightedSum` adds `+confidence` for Pass, `-confidence`
for Fail, `0` for Warning; `weightedAverage = weightedSum / totalWeight`
(0 if `totalWeight = 0`); `overallRiskScore` is the mean risk score (50
if no votes); `overallConfidence = totalWeight / voteCount` (0 if no
votes); Fail if `weightedAverage < -0.3` or `failCount > 0.25 *
voteCount`, else Pass if `weightedAverage > 0.3` and `failCount = 0`,
else Warning; no votes at all gives Warning with confidence 0 and risk
score 50. -/
def specAggregate (votes : List (String × VoteData)) : SpecVerdict :=
  let voteCount := votes.length
  let totalWeight := confSum votes
  let weightedSum := signedSum votes
  let weightedAverage : ℚ := if totalWeight = 0 then 0 else weightedSum / totalWeight
  let failCount := nFail votes
  let riskScore : ℚ := if voteCount = 0 then 50 else (riskList votes).sum / (voteCount : ℚ)
  let confidence : ℚ := if voteCount = 0 then 0 else totalWeight / (voteCount : ℚ)
  let verdict : Vote :=
    if voteCount = 0 then Vote.WARNING
    else if weightedAverage < -(0.3 : ℚ) ∨ (failCount : ℚ) > (0.25 : ℚ) * (voteCount : ℚ) then
      Vote.FAIL
    else if weightedAverage > (0.3 : ℚ) ∧ failCount = 0 then Vote.PASS
    else Vote.WARNING
  ⟨verdict, confidence, riskScore⟩

/-! ## Council fan-out (`CouncilOf32.verify` / `_verify_parallel`) -/

/-- Outcome of one dispatched evaluation task, as seen by
`CouncilOf32._verify_parallel`.  `apiOk` / `apiError` are the two ways
`CouncilMember.analyze` itself finishes (Gemini call parsed, or an
exception caught inside `analyze`); `taskError` is `future.result`
raising (timeout or any error escaping the task). -/
inductive EvalOutcome where
  | apiOk (a : VoteData)
  | apiError (msg : String)
  | taskError (msg : String)
deriving DecidableEq, Repr

/-- The fallback dict built by the `except` branch inside
`CouncilMember.analyze`: Warning, confidence 0.5, risk score 50. -/
def analyzeFallback (msg : String) : VoteData :=
  { vote := Vote.WARNING
    confidence := 0.5
    reasoning := "Analysis failed: " ++ msg
    risk_score := 50
    findings := [] }

/-- `CouncilMember.analyze`, with the Gemini call plus parsing abstracted
into its `Except` argument: a successful call yields the parsed analysis,
an exception yields the in-`analyze` fallback. -/
def analyze : Except String VoteData → VoteData
  | Except.ok a => a
  | Except.error e => analyzeFallback e

/-- The fallback dict built in the `except` branch of
`CouncilOf32._verify_parallel` when `future.result` raises: Warning,
confidence 0.0, risk score 50. -/
def taskFallback (msg : String) : VoteData :=
  { vote := Vote.WARNING
    confidence := 0
    reasoning := "Analysis failed: " ++ msg
    risk_score := 50
    findings := [] }

/-- The vote recorded for one category by the collection loop of
`_verify_parallel`, given how its task finished. -/
def collectVote : EvalOutcome → VoteData
  | EvalOutcome.apiOk a => analyze (Except.ok a)
  | EvalOutcome.apiError m => analyze (Except.error m)
  | EvalOutcome.taskError m => taskFallback m

/-- A council behaviour: how the evaluation task of each category ends
for a given content string.  This abstracts the Gemini-backed
`CouncilMember.analyze` calls of `_verify_parallel`. -/
def Behaviour : Type := String → String → EvalOutcome

/-- `CouncilOf32._verify_parallel`: one vote per selected category.  The
`as_completed` dict fan-in is modelled as an association list in category
order (the aggregation is proved order-invariant separately). -/
def verify_parallel (content : String) (beh : Behaviour) (categories : List String) :
    List (String × VoteData) :=
  categories.map fun cat => (cat, collectVote (beh content cat))

/-- The 32 keys of `CouncilOf32.RISK_CATEGORIES`. -/
def allCategories : List String :=
  ["TC260-01", "TC260-02", "TC260-03", "TC260-04", "TC260-05", "TC260-06",
   "TC260-07", "TC260-08", "TC260-09", "TC260-10", "TC260-11", "TC260-12",
   "TC260-13", "TC260-14", "TC260-15", "TC260-16", "TC260-17", "TC260-18",
   "TC260-19", "TC260-20", "TC260-21", "TC260-22", "TC260-23", "TC260-24",
   "TC260-25", "TC260-26", "TC260-27", "TC260-28", "TC260-29", "TC260-30",
   "TC260-31", "TC260-32"]

/-- `categories_to_test = categories or list(self.council_members.keys())`:
a `None` or empty request selects the whole registry. -/
def categories_to_test : Option (List String) → List String
  | none => allCategories
  | some [] => allCategories
  | some cs => cs

/-- `CouncilOf32.verify`: select the categories, collect one vote per
category, aggregate.  The content string is passed through to the
evaluator behaviour untouched; no validation of any kind happens. -/
def verify (content : String) (beh : Behaviour) (categories : Option (List String)) : AggResult :=
  aggregate_votes (verify_parallel content beh (categories_to_test categories))

/-! ## Ledger (`src/tc260/blockchain.py`)

The SHA-256 digest of the canonical JSON dump used by
`Block.calculate_hash` is modelled as an abstract digest function
`hashFn` over the five hashed fields `(index, timestamp, data,
previous_hash, nonce)`. -/

/-- The pending verification record dict built by
`VerificationBlockchain.add_verification`. -/
structure VerificationRecord where
  verification_id : String
  content_hash : String
  user_id : String
  timestamp : String
  overall_vote : Vote
  overall_risk_score : ℚ
  overall_confidence : ℚ
  categories_tested : ℕ
  metadata : List (String × String)
deriving DecidableEq, Repr

/-- The feedback record dict built by
`VerificationBlockchain.add_feedback`. -/
structure LedgerFeedback where
  feedback_id : String
  verification_id : String
  feedback_type : String
  user_id : String
  timestamp : String
  metadata : List (String × String)
deriving DecidableEq, Repr

/-- The tagged `data` dict of a block: `GENESIS`, `VERIFICATIONS` (with
its stored `count`) or `FEEDBACK`. -/
inductive BlockData where
  | genesis (message : String) (created_at : String)
  | verifications (records : List VerificationRecord) (count : ℕ)
  | feedback (record : LedgerFeedback)
deriving DecidableEq, Repr

/-- The `Block` class: `index`, `timestamp`, `data`, `previous_hash`,
`nonce`, `hash`. -/
structure Block where
  index : ℕ
  timestamp : ℚ
  data : BlockData
  previous_hash : String
  nonce : ℕ
  hash : String
deriving DecidableEq, Repr

/-- Placeholder block used for out-of-range list reads (the Python code
would raise instead; no claim exercises that path). -/
def dfltBlock : Block :=
  ⟨0, 0, BlockData.genesis "" "", "", 0, ""⟩

/-- The difficulty predicate: at least `difficulty` leading `0`
characters, as checked by both `Block.mine_block`
(`self.hash[:difficulty] != target`) and
`VerificationBlockchain.is_chain_valid`
(`hash.startswith("0" * difficulty)`). -/
def chk (difficulty : ℕ) (s : String) : Bool :=
  s.data.take difficulty == List.replicate difficulty '0'

section Ledger

variable (hashFn : ℕ → ℚ → BlockData → String → ℕ → String)

/-- The digest of a block at a candidate nonce. -/
def hashAt (b : Block) (n : ℕ) : String :=
  hashFn b.index b.timestamp b.data b.previous_hash n

/-- `Block.calculate_hash`: digest of the five hashed fields at the
stored nonce. -/
def calculate_hash (b : Block) : String :=
  hashAt hashFn b b.nonce

/-- The `Block` constructor: nonce 0 and `hash = calculate_hash()`. -/
def mkBlock (index : ℕ) (timestamp : ℚ) (data : BlockData) (previous_hash : String) : Block :=
  { index := index
    timestamp := timestamp
    data := data
    previous_hash := previous_hash
    nonce := 0
    hash := hashFn index timestamp data previous_hash 0 }

/-- Termination condition for the `while` loop of `Block.mine_block`:
some nonce strictly beyond the current one digests below the difficulty
target.  (The Python loop searches unboundedly; the hypothesis makes the
search total in the embedding.) -/
def Mineable (b : Block) (difficulty : ℕ) : Prop :=
  ∃ k, chk difficulty (hashAt hashFn b (b.nonce + 1 + k)) = true

/-- `Block.mine_block`: if the stored hash already meets the target the
loop body never runs; otherwise the nonce is incremented (and the hash
recomputed) until the first nonce whose digest meets the target. -/
def mine_block (b : Block) (difficulty : ℕ) (hx : Mineable hashFn b difficulty) : Block :=
  if chk difficulty b.hash then b
  else
    let n := b.nonce + 1 + Nat.find hx
    { b with nonce := n, hash := hashAt hashFn b n }

/-- The `VerificationBlockchain` class state: `chain`, `difficulty`,
`pending_verifications`. -/
structure VerificationBlockchain where
  chain : List Block
  difficulty : ℕ
  pending_verifications : List VerificationRecord
deriving DecidableEq, Repr

/-- The genesis message of `_create_genesis_block`. -/
def genesisMessage : String :=
  "Council of AI - EU260 Safety Verification Blockchain"

/-- `VerificationBlockchain.__init__` + `_create_genesis_block`: start
with the single mined genesis block (`index 0`, `previous_hash "0"`) and
an empty pending batch. -/
def initChain (difficulty : ℕ) (ts : ℚ) (created_at : String)
    (hx : Mineable hashFn (mkBlock hashFn 0 ts (BlockData.genesis genesisMessage created_at) "0")
      difficulty) : VerificationBlockchain :=
  { chain := [mine_block hashFn (mkBlock hashFn 0 ts (BlockData.genesis genesisMessage created_at) "0")
      difficulty hx]
    difficulty := difficulty
    pending_verifications := [] }

/-- `VerificationBlockchain.get_latest_block`: the last chain element
(`self.chain[-1]`). -/
def get_latest_block (bc : VerificationBlockchain) : Block :=
  bc.chain.getLastD dfltBlock

/-- `VerificationBlockchain.add_verification`: build the pending record
from the call arguments and the council result, append it to the
pending batch, return it.  The chain is not touched. -/
def add_verification (bc : VerificationBlockchain)
    (verification_id content_hash user_id ts : String) (result : AggResult)
    (metadata : List (String × String)) : VerificationRecord × VerificationBlockchain :=
  let record : VerificationRecord :=
    { verification_id := verification_id
      content_hash := content_hash
      user_id := user_id
      timestamp := ts
      overall_vote := result.overall_vote
      overall_risk_score := result.overall_risk_score
      overall_confidence := result.overall_confidence
      categories_tested := result.votes.length
      metadata := metadata }
  (record, { bc with pending_verifications := bc.pending_verifications ++ [record] })

/-- The draft block `mine_pending_verifications` constructs before
mining: next index, the whole pending batch as payload, previous hash
taken from the chain tip. -/
def pendingBlock (bc : VerificationBlockchain) (ts : ℚ) : Block :=
  mkBlock hashFn bc.chain.length ts
    (BlockData.verifications bc.pending_verifications bc.pending_verifications.length)
    (get_latest_block bc).hash

/-- `VerificationBlockchain.mine_pending_verifications`: `None` (and no
state change) on an empty pending batch; otherwise mine the draft block,
append it to the chain and clear the batch. -/
def mine_pending_verifications (bc : VerificationBlockchain) (ts : ℚ)
    (hx : Mineable hashFn (pendingBlock hashFn bc ts) bc.difficulty) :
    Option Block × VerificationBlockchain :=
  if bc.pending_verifications = [] then (none, bc)
  else
    let nb := mine_block hashFn (pendingBlock hashFn bc ts) bc.difficulty hx
    (some nb, { bc with chain := bc.chain ++ [nb], pending_verifications := [] })

/-- The feedback record dict `add_feedback` builds from its arguments. -/
def mkLedgerFeedback (feedback_id verification_id feedback_type user_id timestamp : String)
    (metadata : List (String × String)) : LedgerFeedback :=
  { feedback_id := feedback_id
    verification_id := verification_id
    feedback_type := feedback_type
    user_id := user_id
    timestamp := timestamp
    metadata := metadata }

/-- The single-feedback draft block `add_feedback` constructs. -/
def feedbackBlock (bc : VerificationBlockchain) (record : LedgerFeedback) (ts : ℚ) : Block :=
  mkBlock hashFn bc.chain.length ts (BlockData.feedback record) (get_latest_block bc).hash

/-- `VerificationBlockchain.add_feedback`: build the feedback record,
mine its block immediately (no batching) and append it to the chain. -/
def add_feedback (bc : VerificationBlockchain) (record : LedgerFeedback) (ts : ℚ)
    (hx : Mineable hashFn (feedbackBlock hashFn bc record ts) bc.difficulty) :
    Block × VerificationBlockchain :=
  let nb := mine_block hashFn (feedbackBlock hashFn bc record ts) bc.difficulty hx
  (nb, { bc with chain := bc.chain ++ [nb] })

/-- The three per-block checks of `is_chain_valid`, in source order:
stored hash equals the recomputed hash, `previous_hash` equals the
stored hash of the predecessor, stored hash meets the difficulty
target. -/
def blockChecks (difficulty : ℕ) (prev cur : Block) : Bool :=
  (cur.hash == calculate_hash hashFn cur) &&
  (cur.previous_hash == prev.hash) &&
  chk difficulty cur.hash

/-- The validation walk from entry 1 to the end. -/
def chainValidFrom (difficulty : ℕ) : Block → List Block → Bool
  | _, [] => true
  | prev, cur :: rest => blockChecks hashFn difficulty prev cur && chainValidFrom difficulty cur rest

/-- `VerificationBlockchain.is_chain_valid`: run the three checks for
every index from 1 to the end of the chain; entry 0 is never itself
recomputed. -/
def is_chain_valid (bc : VerificationBlockchain) : Bool :=
  match bc.chain with
  | [] => true
  | b :: rest => chainValidFrom hashFn bc.difficulty b rest

/-- Ledger states reachable through the public operations of
`VerificationBlockchain`, starting from construction. -/
inductive Reachable : VerificationBlockchain → Prop where
  | init (difficulty : ℕ) (ts : ℚ) (created_at : String) (hx) :
      Reachable (initChain hashFn difficulty ts created_at hx)
  | add_verification (bc : VerificationBlockchain) (vid ch uid ts : String) (result : AggResult)
      (md : List (String × String)) : Reachable bc →
      Reachable (add_verification bc vid ch uid ts result md).2
  | mine_pending (bc : VerificationBlockchain) (ts : ℚ) (hx) : Reachable bc →
      Reachable (mine_pending_verifications hashFn bc ts hx).2
  | feedback (bc : VerificationBlockchain) (record : LedgerFeedback) (ts : ℚ) (hx) :
      Reachable bc → Reachable (add_feedback hashFn bc record ts hx).2

end Ledger

/-! ## Tamper models

The tamper scenarios of the spec (flip a stored payload, flip a stored
hash, swap two entries) expressed as functions on the ledger state. -/

/-- Replace the stored hash of entry `i` (all other fields kept). -/
def setStoredHash (bc : VerificationBlockchain) (i : ℕ) (h : String) : VerificationBlockchain :=
  { bc with chain := bc.chain.set i { bc.chain.getD i dfltBlock with hash := h } }

/-- Replace the stored payload of entry `i` (all other fields kept). -/
def setStoredData (bc : VerificationBlockchain) (i : ℕ) (d : BlockData) : VerificationBlockchain :=
  { bc with chain := bc.chain.set i { bc.chain.getD i dfltBlock with data := d } }

/-- Swap the entries at positions `p` and `q`. -/
def swapEntries (bc : VerificationBlockchain) (p q : ℕ) : VerificationBlockchain :=
  { bc with chain := (bc.chain.set p (bc.chain.getD q dfltBlock)).set q (bc.chain.getD p dfltBlock) }

/-! ## Feedback statistics (`src/tc260/rlmai.py`) -/

/-- The `FeedbackType` enum. -/
inductive FeedbackType where
  | CORRECT
  | INCORRECT
  | FALSE_POSITIVE
  | FALSE_NEGATIVE
  | SEVERITY_TOO_HIGH
  | SEVERITY_TOO_LOW
deriving DecidableEq, Repr

/-- A feedback record as built by `RLMAIFeedback.record_feedback`. -/
structure FeedbackEntry where
  feedback_id : String
  verification_id : String
  category_id : String
  feedback_type : FeedbackType
  user_id : String
  notes : Option String
  corrected_vote : Option String
  corrected_risk_score : Option ℚ
  timestamp : String
deriving DecidableEq, Repr

/-- The stats dict returned by `RLMAIFeedback._get_stats_from_memory`.
The `category_id` echo key (absent in the no-feedback early return) is
not modelled. -/
structure FeedbackStats where
  total_feedback : ℕ
  accuracy : ℚ
  false_positive_rate : ℚ
  false_negative_rate : ℚ
deriving DecidableEq, Repr

/-- The category filter at the top of `_get_stats_from_memory`. -/
def feedback_filter (log : List FeedbackEntry) : Option String → List FeedbackEntry
  | some c => log.filter fun f => f.category_id == c
  | none => log

/-- `RLMAIFeedback._get_stats_from_memory`: zero stats when no feedback
matches, otherwise counts divided by the total. -/
def get_stats_from_memory (log : List FeedbackEntry) (category_id : Option String) :
    FeedbackStats :=
  let feedback_list := feedback_filter log category_id
  if feedback_list = [] then
    ⟨0, 0, 0, 0⟩
  else
    let total := feedback_list.length
    let correct := feedback_list.countP fun f => f.feedback_type == FeedbackType.CORRECT
    let false_positives := feedback_list.countP fun f => f.feedback_type == FeedbackType.FALSE_POSITIVE
    let false_negatives := feedback_list.countP fun f => f.feedback_type == FeedbackType.FALSE_NEGATIVE
    ⟨total,
     if total > 0 then (correct : ℚ) / (total : ℚ) else 0,
     if total > 0 then (false_positives : ℚ) / (total : ℚ) else 0,
     if total > 0 then (false_negatives : ℚ) / (total : ℚ) else 0⟩

/-- Shorthand for a feedback entry carrying only the fields the stats
read. -/
def mkFeedbackEntry (category_id : String) (feedback_type : FeedbackType) : FeedbackEntry :=
  ⟨"fb", "v", category_id, feedback_type, "u", none, none, none, "t"⟩

/-! ## Concrete test fixtures

A concrete digest function and small concrete ledgers, used by the
witness and counterexample theorems.  `testHash` separates the fixture
blocks and always meets difficulty 2, so mining terminates at once and
every hypothesis below is decidable. -/

/-- One-letter encoding of a verdict. -/
def encodeVote : Vote → String
  | Vote.PASS => "P"
  | Vote.FAIL => "F"
  | Vote.WARNING => "W"

/-- String encoding of a pending verification record (string and count
fields only; enough to separate the fixtures below). -/
def encodeRecord (r : VerificationRecord) : String :=
  r.verification_id ++ "," ++ r.content_hash ++ "," ++ r.user_id ++ "," ++ r.timestamp
    ++ "," ++ encodeVote r.overall_vote ++ "," ++ toString r.categories_tested

/-- String encoding of a ledger feedback record. -/
def encodeFeedback (f : LedgerFeedback) : String :=
  f.feedback_id ++ "," ++ f.verification_id ++ "," ++ f.feedback_type ++ ","
    ++ f.user_id ++ "," ++ f.timestamp

/-- String encoding of a block payload. -/
def encodeData : BlockData → String
  | BlockData.genesis m c => "G:" ++ m ++ ":" ++ c
  | BlockData.verifications rs n =>
      "V:" ++ toString n ++ ":" ++ String.join (rs.map encodeRecord)
  | BlockData.feedback f => "F:" ++ encodeFeedback f

/-- Concrete digest function for the fixtures: a `00` prefix (so
difficulty 2 is always met) followed by an encoding of the hashed
fields. -/
def testHash (index : ℕ) (_ : ℚ) (data : BlockData) (previous_hash : String) (nonce : ℕ) :
    String :=
  "00#" ++ toString index ++ "#" ++ encodeData data ++ "#" ++ previous_hash
    ++ "#" ++ toString nonce

/-- The genesis draft of the fixture ledger mines immediately under
`testHash`. -/
def gMineable :
    Mineable testHash (mkBlock testHash 0 0 (BlockData.genesis genesisMessage "t0") "0") 2 :=
  ⟨0, by decide⟩

/-- Fixture: a freshly constructed ledger (genesis only, difficulty 2). -/
def ledgerG : VerificationBlockchain :=
  initChain testHash 2 0 "t0" gMineable

/-- Fixture feedback record number one. -/
def fb1 : LedgerFeedback :=
  mkLedgerFeedback "fb1" "v1" "CORRECT" "alice" "t1" []

/-- Fixture feedback record number two. -/
def fb2 : LedgerFeedback :=
  mkLedgerFeedback "fb2" "v2" "INCORRECT" "bob" "t2" []

/-- The first feedback block of the fixture ledger mines immediately. -/
def fbMineable1 : Mineable testHash (feedbackBlock testHash ledgerG fb1 1) 2 :=
  ⟨0, by decide⟩

/-- Fixture: the ledger after sealing one feedback entry (two blocks). -/
def ledgerA : VerificationBlockchain :=
  (add_feedback testHash ledgerG fb1 1 fbMineable1).2

/-- The second feedback block of the fixture ledger mines immediately. -/
def fbMineable2 : Mineable testHash (feedbackBlock testHash ledgerA fb2 2) 2 :=
  ⟨0, by decide⟩

/-- Fixture: the ledger after sealing two feedback entries (three
blocks). -/
def ledgerB : VerificationBlockchain :=
  (add_feedback testHash ledgerA fb2 2 fbMineable2).2

/-- Fixture: the genesis ledger with one pending verification record. -/
def ledgerP : VerificationBlockchain :=
  (add_verification ledgerG "v9" "deadbeef" "carol" "t3" (aggregate_votes []) []).2

/-- The pending-batch block of `ledgerP` mines immediately. -/
def pendMineable : Mineable testHash (pendingBlock testHash ledgerP 4) 2 :=
  ⟨0, by decide⟩

/-! ## Theorems -/

theorem foldl_aggStep (votes : List (String × VoteData)) (s : AggState) :
    votes.foldl aggStep s =
      ⟨s.total_weight + confSum votes, s.weighted_sum + signedSum votes,
       s.risk_scores ++ riskList votes, s.fail_count + nFail votes,
       s.warning_count + nWarn votes, s.pass_count + nPass votes⟩ := by
  induction votes generalizing s with
  | nil =>
      simp [confSum, signedSum, riskList, nFail, nWarn, nPass]
  | cons p rest ih =>
      obtain ⟨c, v⟩ := p
      rw [List.foldl_cons, ih]
      cases hv : v.vote <;>
        simp [aggStep, hv, confSum, signedSum, riskList, nFail, nWarn, nPass,
          voteSign, List.countP_cons] <;>
        and_intros <;> ring

/-- Evaluation of `aggregate_votes` on a nonempty vote list, with the
fold replaced by its closed forms. -/
theorem aggregate_votes_ne (votes : List (String × VoteData)) (hv : votes ≠ []) :
    aggregate_votes votes =
      (let wAvg : ℚ := if confSum votes > 0 then signedSum votes / confSum votes else 0
       let risk : ℚ := (riskList votes).sum / (votes.length : ℚ)
       let ov : Vote :=
         if wAvg < -(0.3 : ℚ) ∨ (nFail votes : ℚ) > (votes.length : ℚ) * (0.25 : ℚ) then Vote.FAIL
         else if wAvg > (0.3 : ℚ) ∧ nFail votes = 0 then Vote.PASS
         else Vote.WARNING
       { overall_vote := ov
         overall_confidence := confSum votes / (votes.length : ℚ)
         overall_risk_score := risk
         votes := votes
         summary := mkSummary (nFail votes) (nWarn votes) (nPass votes) risk ov
         vote_counts := ⟨nFail votes, nWarn votes, nPass votes⟩ }) := by
  unfold aggregate_votes
  have hr : riskList votes ≠ [] := by
    simpa [riskList, List.map_eq_nil_iff] using hv
  simp [hv, foldl_aggStep, riskList, hr, List.length_map]

/-- Claim C1: on every vote list with nonnegative confidences (the data
model bounds confidence to [0,1]), the reduction of
`CouncilOf32._aggregate_votes` agrees with the reference reduction
written from the spec on overall verdict, overall confidence and overall
risk score; and the empty vote list yields Warning with confidence 0 and
risk score 50. -/
theorem aggregate_votes_matches_spec (votes : List (String × VoteData))
    (h : ∀ p ∈ votes, 0 ≤ (Prod.snd p).confidence) :
    ((aggregate_votes votes).overall_vote = (specAggregate votes).verdict ∧
     (aggregate_votes votes).overall_confidence = (specAggregate votes).confidence ∧
     (aggregate_votes votes).overall_risk_score = (specAggregate votes).riskScore) ∧
    ((aggregate_votes []).overall_vote = Vote.WARNING ∧
     (aggregate_votes []).overall_confidence = 0 ∧
     (aggregate_votes []).overall_risk_score = 50) := by
  refine ⟨?_, by decide, by decide, by decide⟩
  by_cases hv : votes = []
  · subst hv; refine ⟨by decide, by decide, by decide⟩
  · have hlen : votes.length ≠ 0 := by
      simpa [List.length_eq_zero] using hv
    have h0 : 0 ≤ confSum votes := by
      apply List.sum_nonneg
      intro x hx
      simp only [confSum, List.mem_map] at hx
      obtain ⟨p, hp, rfl⟩ := hx
      exact h p hp
    have havg :
        (if confSum votes > 0 then signedSum votes / confSum votes else 0) =
          (if confSum votes = 0 then 0 else signedSum votes / confSum votes) := by
      rcases eq_or_lt_of_le h0 with hz | hpos
      · simp [← hz]
      · rw [if_pos hpos, if_neg (ne_of_gt hpos)]
    rw [aggregate_votes_ne votes hv]
    simp only [specAggregate, hlen, if_neg, havg]
    refine ⟨?_, by simp [hlen], by simp [hlen]⟩
    simp [hlen, mul_comm]

/-- Witness for `aggregate_votes_matches_spec` at a concrete two-vote
list. -/
theorem aggregate_votes_matches_spec_witness :
    (∀ p ∈ [("TC260-01", (⟨Vote.PASS, 1, "ok", 10, []⟩ : VoteData)),
            ("TC260-04", (⟨Vote.FAIL, 1, "bad", 90, []⟩ : VoteData))],
       0 ≤ (Prod.snd p).confidence) ∧
    ((aggregate_votes [("TC260-01", ⟨Vote.PASS, 1, "ok", 10, []⟩),
                       ("TC260-04", ⟨Vote.FAIL, 1, "bad", 90, []⟩)]).overall_vote =
      (specAggregate [("TC260-01", ⟨Vote.PASS, 1, "ok", 10, []⟩),
                      ("TC260-04", ⟨Vote.FAIL, 1, "bad", 90, []⟩)]).verdict) :=
  ⟨by decide, (aggregate_votes_matches_spec _ (by decide)).1.1⟩

/-- Claim C6: the overall verdict, overall confidence and overall risk
score computed by `CouncilOf32._aggregate_votes` are invariant under
every permutation of the vote list. -/
theorem aggregate_votes_perm_invariant (v1 v2 : List (String × VoteData)) (h : v1.Perm v2) :
    (aggregate_votes v1).overall_vote = (aggregate_votes v2).overall_vote ∧
    (aggregate_votes v1).overall_confidence = (aggregate_votes v2).overall_confidence ∧
    (aggregate_votes v1).overall_risk_score = (aggregate_votes v2).overall_risk_score := by
  by_cases hv : v1 = []
  · subst hv
    have h2 : v2 = [] := h.symm.eq_nil
    subst h2
    exact ⟨rfl, rfl, rfl⟩
  · have hv2 : v2 ≠ [] := by
      intro e
      exact hv ((e ▸ h).eq_nil)
    rw [aggregate_votes_ne v1 hv, aggregate_votes_ne v2 hv2]
    have hc : confSum v1 = confSum v2 := (h.map _).sum_eq
    have hs : signedSum v1 = signedSum v2 := (h.map _).sum_eq
    have hr : (riskList v1).sum = (riskList v2).sum := (h.map _).sum_eq
    have hl : v1.length = v2.length := h.length_eq
    have hf : nFail v1 = nFail v2 := h.countP_eq _
    simp [hc, hs, hr, hl, hf]

/-- Witness for `aggregate_votes_perm_invariant` at a concrete swapped
pair of vote lists. -/
theorem aggregate_votes_perm_invariant_witness :
    ([("TC260-01", (⟨Vote.PASS, 1, "ok", 10, []⟩ : VoteData)),
      ("TC260-04", (⟨Vote.FAIL, 1, "bad", 90, []⟩ : VoteData))].Perm
      [("TC260-04", ⟨Vote.FAIL, 1, "bad", 90, []⟩),
       ("TC260-01", ⟨Vote.PASS, 1, "ok", 10, []⟩)]) ∧
    (aggregate_votes [("TC260-01", ⟨Vote.PASS, 1, "ok", 10, []⟩),
                      ("TC260-04", ⟨Vote.FAIL, 1, "bad", 90, []⟩)]).overall_vote =
      (aggregate_votes [("TC260-04", ⟨Vote.FAIL, 1, "bad", 90, []⟩),
                        ("TC260-01", ⟨Vote.PASS, 1, "ok", 10, []⟩)]).overall_vote :=
  ⟨List.Perm.swap _ _ _,
   (aggregate_votes_perm_invariant _ _ (List.Perm.swap _ _ _)).1⟩

/-- `_aggregate_votes` copies the collected votes unchanged into the
result. -/
theorem aggregate_votes_votes (votes : List (String × VoteData)) :
    (aggregate_votes votes).votes = votes := by
  by_cases hv : votes = []
  · subst hv; rfl
  · rw [aggregate_votes_ne votes hv]

/-- The fan-in records one vote per selected category, in category
order. -/
theorem verify_parallel_keys (content : String) (beh : Behaviour) (categories : List String) :
    (verify_parallel content beh categories).map Prod.fst = categories := by
  simp [verify_parallel, Function.comp_def]

/-- Claim C4: a `CouncilOf32.verify` call over a nonempty, duplicate-free
requested category list always returns a result carrying exactly one
vote per requested category, whatever the evaluator outcomes are; every
category whose task raised gets the substituted fallback vote.  (The
whole call is a total function of the outcomes: no evaluator failure can
fail it.) -/
theorem verify_complete_under_failure (content : String) (beh : Behaviour)
    (cats : List String) (h1 : cats ≠ []) (h2 : cats.Nodup) :
    ((verify content beh (some cats)).votes.map Prod.fst = cats) ∧
    (∀ c ∈ cats, ∀ m, beh content c = EvalOutcome.taskError m →
      (c, taskFallback m) ∈ (verify content beh (some cats)).votes) := by
  have hsel : categories_to_test (some cats) = cats := by
    cases cats with
    | nil => exact absurd rfl h1
    | cons c cs => rfl
  constructor
  · rw [verify, hsel, aggregate_votes_votes, verify_parallel_keys]
  · intro c hc m hm
    rw [verify, hsel, aggregate_votes_votes]
    refine List.mem_map.mpr ⟨c, hc, ?_⟩
    simp [collectVote, hm]

/-- Witness for `verify_complete_under_failure`: two requested
categories, one of which times out. -/
theorem verify_complete_under_failure_witness :
    ((["TC260-01", "TC260-02"] : List String) ≠ [] ∧
     (["TC260-01", "TC260-02"] : List String).Nodup) ∧
    ((verify "text"
        (fun _ cat => if cat = "TC260-02" then EvalOutcome.taskError "timeout"
          else EvalOutcome.apiOk ⟨Vote.PASS, 1, "ok", 10, []⟩)
        (some ["TC260-01", "TC260-02"])).votes.map Prod.fst = ["TC260-01", "TC260-02"]) ∧
    ("TC260-02", taskFallback "timeout") ∈
      (verify "text"
        (fun _ cat => if cat = "TC260-02" then EvalOutcome.taskError "timeout"
          else EvalOutcome.apiOk ⟨Vote.PASS, 1, "ok", 10, []⟩)
        (some ["TC260-01", "TC260-02"])).votes :=
  ⟨⟨by decide, by decide⟩,
   (verify_complete_under_failure "text" _ _ (by decide) (by decide)).1,
   (verify_complete_under_failure "text" _ _ (by decide) (by decide)).2
     "TC260-02" (by decide) "timeout" (by decide)⟩

/-- Claim C5 counterexample: the two failure paths of the source do not
substitute the same vote.  An exception caught inside
`CouncilMember.analyze` yields confidence 0.5, while the claimed uniform
fallback confidence is 0.0 (which only the `_verify_parallel` task
failure path uses). -/
theorem fallback_confidence_counterexample :
    (collectVote (EvalOutcome.apiError "boom")).confidence = (0.5 : ℚ) ∧
    ((0.5 : ℚ) ≠ 0) ∧
    (collectVote (EvalOutcome.taskError "boom")).confidence = 0 :=
  ⟨rfl, by norm_num, rfl⟩

/-- Claim C5 (amended): a task-level timeout or error substitutes
verdict Warning, confidence 0.0, risk score 50 and rationale
`Analysis failed: <cause>`; an exception caught inside
`CouncilMember.analyze` substitutes the same vote except with confidence
0.5.  The two failure paths agree on verdict, risk score and rationale
but not on confidence. -/
theorem fallback_votes_per_path (msg : String) :
    collectVote (EvalOutcome.taskError msg) =
      ⟨Vote.WARNING, 0, "Analysis failed: " ++ msg, 50, []⟩ ∧
    collectVote (EvalOutcome.apiError msg) =
      ⟨Vote.WARNING, 0.5, "Analysis failed: " ++ msg, 50, []⟩ :=
  ⟨rfl, rfl⟩

/-- Claim C8 counterexample: called with empty content,
`CouncilOf32.verify` does not reject the input — it dispatches the
evaluators and returns a complete verdict carrying their votes. -/
theorem verify_empty_content_counterexample :
    (verify "" (fun _ _ => EvalOutcome.apiOk ⟨Vote.PASS, 1, "ok", 5, []⟩)
        (some ["TC260-01"])).votes =
      [("TC260-01", ⟨Vote.PASS, 1, "ok", 5, []⟩)] := by
  rw [verify, aggregate_votes_votes]
  rfl

/-- Claim C8 (amended): `CouncilOf32.verify` performs no validation of
its content argument; with empty content it selects the requested
categories, dispatches their evaluators and returns a structurally
complete result — one vote per requested category — exactly as for any
other content.  No `InvalidInput` rejection exists in the code. -/
theorem verify_empty_content_no_rejection (beh : Behaviour) (cats : List String)
    (h1 : cats ≠ []) (h2 : cats.Nodup) :
    ((verify "" beh (some cats)).votes.map Prod.fst = cats) ∧
    ((verify "" beh (some cats)).votes =
      cats.map fun c => (c, collectVote (beh "" c))) := by
  have hsel : categories_to_test (some cats) = cats := by
    cases cats with
    | nil => exact absurd rfl h1
    | cons c cs => rfl
  refine ⟨?_, ?_⟩
  · rw [verify, hsel, aggregate_votes_votes, verify_parallel_keys]
  · rw [verify, hsel, aggregate_votes_votes]
    rfl

/-- Witness for `verify_empty_content_no_rejection`. -/
theorem verify_empty_content_no_rejection_witness :
    ((["TC260-03"] : List String) ≠ [] ∧ (["TC260-03"] : List String).Nodup) ∧
    (verify "" (fun _ _ => EvalOutcome.taskError "timeout") (some ["TC260-03"])).votes.map
        Prod.fst = ["TC260-03"] :=
  ⟨⟨by decide, by decide⟩,
   (verify_empty_content_no_rejection (fun _ _ => EvalOutcome.taskError "timeout")
     ["TC260-03"] (by decide) (by decide)).1⟩

/-! ## Ledger theorems -/

section LedgerThms

variable (hashFn : ℕ → ℚ → BlockData → String → ℕ → String)

theorem getD_set_self {α : Type} (l : List α) (i : ℕ) (a d : α) (hi : i < l.length) :
    (l.set i a).getD i d = a := by
  rw [List.getD_eq_getElem _ _ (by simpa using hi)]
  simp [List.getElem_set]

theorem getD_set_ne {α : Type} (l : List α) (i j : ℕ) (a d : α) (hij : i ≠ j) :
    (l.set i a).getD j d = l.getD j d := by
  by_cases hj : j < l.length
  · rw [List.getD_eq_getElem _ _ (by simpa using hj), List.getD_eq_getElem _ _ hj]
    simp [List.getElem_set, hij]
  · rw [List.getD_eq_default _ _ (by simpa using Nat.le_of_not_lt hj),
      List.getD_eq_default _ _ (Nat.le_of_not_lt hj)]

theorem get_latest_eq (bc : VerificationBlockchain) (hc : bc.chain ≠ []) :
    get_latest_block bc = bc.chain.getLast hc := by
  rw [get_latest_block, List.getLastD_eq_getLast?, List.getLast?_eq_getLast _ hc]
  rfl

theorem mine_block_chk (b : Block) (d : ℕ) (hx : Mineable hashFn b d) :
    chk d (mine_block hashFn b d hx).hash = true := by
  rw [mine_block]
  split
  · assumption
  · simpa using Nat.find_spec hx

theorem mine_block_fields (b : Block) (d : ℕ) (hx : Mineable hashFn b d) :
    (mine_block hashFn b d hx).index = b.index ∧
    (mine_block hashFn b d hx).timestamp = b.timestamp ∧
    (mine_block hashFn b d hx).data = b.data ∧
    (mine_block hashFn b d hx).previous_hash = b.previous_hash := by
  rw [mine_block]
  split <;> exact ⟨rfl, rfl, rfl, rfl⟩

theorem mine_block_hash_calc (b : Block) (d : ℕ) (hx : Mineable hashFn b d)
    (hb : b.hash = calculate_hash hashFn b) :
    (mine_block hashFn b d hx).hash = calculate_hash hashFn (mine_block hashFn b d hx) := by
  rw [mine_block]
  split
  · exact hb
  · rfl

theorem mkBlock_hash (index : ℕ) (ts : ℚ) (data : BlockData) (ph : String) :
    (mkBlock hashFn index ts data ph).hash =
      calculate_hash hashFn (mkBlock hashFn index ts data ph) := rfl

/-- Claim C10: `add_verification` appends exactly the returned record to
the pending batch and leaves the chain and the difficulty untouched. -/
theorem add_verification_frame (bc : VerificationBlockchain)
    (vid ch uid ts : String) (result : AggResult) (md : List (String × String)) :
    (add_verification bc vid ch uid ts result md).2.pending_verifications =
      bc.pending_verifications ++ [(add_verification bc vid ch uid ts result md).1] ∧
    (add_verification bc vid ch uid ts result md).2.chain = bc.chain ∧
    (add_verification bc vid ch uid ts result md).2.difficulty = bc.difficulty ∧
    (add_verification bc vid ch uid ts result md).1 =
      { verification_id := vid
        content_hash := ch
        user_id := uid
        timestamp := ts
        overall_vote := result.overall_vote
        overall_risk_score := result.overall_risk_score
        overall_confidence := result.overall_confidence
        categories_tested := result.votes.length
        metadata := md } :=
  ⟨rfl, rfl, rfl, rfl⟩

/-- Claim C7: in every ledger state reachable through the public
operations (construction, `add_verification`,
`mine_pending_verifications`, `add_feedback`), every block ever linked
into the chain — the genesis block included — meets the difficulty
predicate. -/
theorem reachable_chain_meets_difficulty (bc : VerificationBlockchain)
    (h : Reachable hashFn bc) :
    ∀ b ∈ bc.chain, chk bc.difficulty b.hash = true := by
  induction h with
  | init d ts created hx =>
      intro b hb
      simp only [initChain, List.mem_singleton] at hb
      subst hb
      exact mine_block_chk hashFn _ _ _
  | add_verification bc vid ch uid ts result md hr ih =>
      intro b hb
      exact ih b hb
  | mine_pending bc ts hx hr ih =>
      intro b hb
      by_cases hp : bc.pending_verifications = []
      · rw [mine_pending_verifications, if_pos hp] at hb ⊢
        exact ih b hb
      · rw [mine_pending_verifications, if_neg hp] at hb
        simp only [List.mem_append, List.mem_singleton] at hb
        rw [mine_pending_verifications, if_neg hp]
        rcases hb with hb | hb
        · exact ih b hb
        · subst hb
          exact mine_block_chk hashFn _ _ _
  | feedback bc record ts hx hr ih =>
      intro b hb
      simp only [add_feedback, List.mem_append, List.mem_singleton] at hb
      rcases hb with hb | hb
      · exact ih b hb
      · subst hb
        exact mine_block_chk hashFn _ _ _

end LedgerThms

/-- Witness for `reachable_chain_meets_difficulty`: the tip of the
three-block fixture ledger (reached by construction plus two feedback
seals) meets difficulty 2. -/
theorem reachable_chain_meets_difficulty_witness :
    chk ledgerB.difficulty (get_latest_block ledgerB).hash = true :=
  reachable_chain_meets_difficulty testHash ledgerB
    (Reachable.feedback ledgerA fb2 2 fbMineable2
      (Reachable.feedback ledgerG fb1 1 fbMineable1
        (Reachable.init 2 0 "t0" gMineable)))
    (get_latest_block ledgerB) (by decide)

section LedgerThms2

variable (hashFn : ℕ → ℚ → BlockData → String → ℕ → String)

/-- Claim C3: with an empty pending batch, `mine_pending_verifications`
returns `None` and changes nothing; otherwise it returns a freshly mined
block whose index is the previous chain length, whose `previous_hash` is
the stored hash of the previous chain tip, whose payload is exactly the
pending batch, whose stored hash is the recomputed hash and meets the
difficulty target, and afterwards that block is the new last chain
element, the previous chain is an unchanged prefix, and the pending
batch is empty. -/
theorem mine_pending_spec (bc : VerificationBlockchain) (ts : ℚ)
    (hx : Mineable hashFn (pendingBlock hashFn bc ts) bc.difficulty) :
    (bc.pending_verifications = [] → mine_pending_verifications hashFn bc ts hx = (none, bc)) ∧
    (bc.pending_verifications ≠ [] → ∀ hc : bc.chain ≠ [],
      ∃ nb : Block,
        (mine_pending_verifications hashFn bc ts hx).1 = some nb ∧
        nb.index = bc.chain.length ∧
        nb.previous_hash = (bc.chain.getLast hc).hash ∧
        nb.data = BlockData.verifications bc.pending_verifications
          bc.pending_verifications.length ∧
        nb.hash = calculate_hash hashFn nb ∧
        chk bc.difficulty nb.hash = true ∧
        (mine_pending_verifications hashFn bc ts hx).2.chain = bc.chain ++ [nb] ∧
        (mine_pending_verifications hashFn bc ts hx).2.chain.take bc.chain.length = bc.chain ∧
        (mine_pending_verifications hashFn bc ts hx).2.pending_verifications = []) := by
  constructor
  · intro hp
    rw [mine_pending_verifications, if_pos hp]
  · intro hp hc
    refine ⟨mine_block hashFn (pendingBlock hashFn bc ts) bc.difficulty hx,
      ?_, ?_, ?_, ?_, ?_, ?_, ?_, ?_, ?_⟩
    · rw [mine_pending_verifications, if_neg hp]
    · exact (mine_block_fields hashFn _ _ _).1
    · have h1 := (mine_block_fields hashFn (pendingBlock hashFn bc ts) bc.difficulty hx).2.2.2
      rw [h1]
      show (get_latest_block bc).hash = _
      rw [get_latest_eq bc hc]
    · exact (mine_block_fields hashFn _ _ _).2.2.1
    · exact mine_block_hash_calc hashFn _ _ hx rfl
    · exact mine_block_chk hashFn _ _ _
    · rw [mine_pending_verifications, if_neg hp]
    · rw [mine_pending_verifications, if_neg hp]
      exact List.take_left _ _
    · rw [mine_pending_verifications, if_neg hp]

end LedgerThms2

/-- Witness for `mine_pending_spec`: sealing the fixture ledger with one
pending record. -/
theorem mine_pending_spec_witness :
    (ledgerP.pending_verifications ≠ [] ∧ ledgerP.chain ≠ []) ∧
    (∃ nb : Block,
      (mine_pending_verifications testHash ledgerP 4 pendMineable).1 = some nb ∧
      nb.index = ledgerP.chain.length ∧
      (mine_pending_verifications testHash ledgerP 4 pendMineable).2.pending_verifications =
        []) := by
  obtain ⟨nb, h1, h2, h3, h4, h5, h6, h7, h8, h9⟩ :=
    (mine_pending_spec testHash ledgerP 4 pendMineable).2 (by decide) (by decide)
  exact ⟨⟨by decide, by decide⟩, nb, h1, h2, h9⟩

section LedgerThms3

variable (hashFn : ℕ → ℚ → BlockData → String → ℕ → String)

theorem chainValidFrom_iff (d : ℕ) (prev : Block) (l : List Block) :
    chainValidFrom hashFn d prev l = true ↔
      ∀ i, i < l.length →
        blockChecks hashFn d ((prev :: l).getD i dfltBlock) (l.getD i dfltBlock) = true := by
  induction l generalizing prev with
  | nil => simp [chainValidFrom]
  | cons c rest ih =>
      rw [chainValidFrom, Bool.and_eq_true, ih c]
      constructor
      · rintro ⟨h0, hrest⟩ i hi
        cases i with
        | zero => simpa using h0
        | succ j => simpa using hrest j (by simpa using hi)
      · intro h
        exact ⟨by simpa using h 0 (by simp),
          fun j hj => by simpa using h (j+1) (by simpa using hj)⟩

theorem is_chain_valid_iff (bc : VerificationBlockchain) :
    is_chain_valid hashFn bc = true ↔
      ∀ i, i + 1 < bc.chain.length →
        blockChecks hashFn bc.difficulty (bc.chain.getD i dfltBlock)
          (bc.chain.getD (i+1) dfltBlock) = true := by
  rcases hch : bc.chain with _ | ⟨b, rest⟩
  · rw [is_chain_valid, hch]
    simp
  · rw [is_chain_valid, hch, chainValidFrom_iff]
    constructor
    · intro h i hi
      simpa using h i (by simpa using hi)
    · intro h i hi
      simpa using h i (by simpa using hi)

/-- The previous-hash link that validity gives at every position from 1
on. -/
theorem valid_link (bc : VerificationBlockchain) (hv : is_chain_valid hashFn bc = true)
    (j : ℕ) (h1 : 1 ≤ j) (h2 : j < bc.chain.length) :
    (bc.chain.getD j dfltBlock).previous_hash = (bc.chain.getD (j-1) dfltBlock).hash := by
  have h := (is_chain_valid_iff hashFn bc).mp hv (j-1) (by omega)
  simp only [blockChecks, Bool.and_eq_true, beq_iff_eq] at h
  have h' := h.1.2
  rw [Nat.sub_add_cancel h1] at h'
  exact h'

/-- Hash-level injectivity of positions, given pairwise distinct stored
hashes. -/
theorem hash_pos_inj (bc : VerificationBlockchain)
    (hnd : (bc.chain.map Block.hash).Nodup) (i j : ℕ)
    (hi : i < bc.chain.length) (hj : j < bc.chain.length)
    (he : (bc.chain.getD i dfltBlock).hash = (bc.chain.getD j dfltBlock).hash) : i = j := by
  rw [List.getD_eq_getElem _ _ hi, List.getD_eq_getElem _ _ hj] at he
  have hi' : i < (bc.chain.map Block.hash).length := by simpa using hi
  have hj' : j < (bc.chain.map Block.hash).length := by simpa using hj
  have hmap : (bc.chain.map Block.hash).get ⟨i, hi'⟩ = (bc.chain.map Block.hash).get ⟨j, hj'⟩ := by
    simpa [List.get_eq_getElem, List.getElem_map] using he
  have hfin := (hnd.get_inj_iff).mp hmap
  exact congrArg Fin.val hfin

/-- Claim C2 (amended): `is_chain_valid` returns true iff for every
entry at a position `i ≥ 1` the stored hash equals the recomputed hash,
the `previous_hash` equals the stored hash of the predecessor, and the
stored hash meets the difficulty target (so an untampered chain
validates); replacing the stored hash of an entry at a position `≥ 1`
with any other value, or replacing its payload with one whose digest
differs from the stored hash, or swapping two entries at positions
`p < q` (under pairwise-distinct stored hashes, and with the genesis
`previous_hash` not itself a stored chain hash), makes `is_chain_valid`
return false.  Entry 0 itself is never recomputed, so its payload is
outside the guarantee. -/
theorem is_chain_valid_spec (bc : VerificationBlockchain) :
    (is_chain_valid hashFn bc = true ↔
      ∀ i, i + 1 < bc.chain.length →
        blockChecks hashFn bc.difficulty (bc.chain.getD i dfltBlock)
          (bc.chain.getD (i+1) dfltBlock) = true) ∧
    (∀ i (h' : String), i + 1 < bc.chain.length → is_chain_valid hashFn bc = true →
      h' ≠ (bc.chain.getD (i+1) dfltBlock).hash →
      is_chain_valid hashFn (setStoredHash bc (i+1) h') = false) ∧
    (∀ i (d' : BlockData), i + 1 < bc.chain.length →
      hashFn (bc.chain.getD (i+1) dfltBlock).index (bc.chain.getD (i+1) dfltBlock).timestamp
          d' (bc.chain.getD (i+1) dfltBlock).previous_hash
          (bc.chain.getD (i+1) dfltBlock).nonce ≠
        (bc.chain.getD (i+1) dfltBlock).hash →
      is_chain_valid hashFn (setStoredData bc (i+1) d') = false) ∧
    (∀ p q, p < q → q < bc.chain.length → is_chain_valid hashFn bc = true →
      (bc.chain.map Block.hash).Nodup →
      (bc.chain.getD 0 dfltBlock).previous_hash ∉ bc.chain.map Block.hash →
      is_chain_valid hashFn (swapEntries bc p q) = false) := by
  refine ⟨is_chain_valid_iff hashFn bc, ?_, ?_, ?_⟩
  · -- stored-hash tampering at position i+1
    intro i h' hi hv hne
    cases hval : is_chain_valid hashFn (setStoredHash bc (i+1) h') with
    | false => rfl
    | true =>
        exfalso
        have hc := (is_chain_valid_iff hashFn _).mp hval i
          (by simpa [setStoredHash, List.length_set] using hi)
        have e1 : (setStoredHash bc (i+1) h').chain.getD (i+1) dfltBlock =
            { bc.chain.getD (i+1) dfltBlock with hash := h' } :=
          getD_set_self _ _ _ _ hi
        have e0 : (setStoredHash bc (i+1) h').chain.getD i dfltBlock =
            bc.chain.getD i dfltBlock :=
          getD_set_ne _ _ _ _ _ (by omega)
        rw [e0, e1] at hc
        simp only [blockChecks, Bool.and_eq_true, beq_iff_eq] at hc
        have hc1 : h' = calculate_hash hashFn (bc.chain.getD (i+1) dfltBlock) := hc.1.1
        have ho := (is_chain_valid_iff hashFn bc).mp hv i hi
        simp only [blockChecks, Bool.and_eq_true, beq_iff_eq] at ho
        exact hne (hc1.trans ho.1.1.symm)
  · -- payload tampering at position i+1
    intro i d' hi hne
    cases hval : is_chain_valid hashFn (setStoredData bc (i+1) d') with
    | false => rfl
    | true =>
        exfalso
        have hc := (is_chain_valid_iff hashFn _).mp hval i
          (by simpa [setStoredData, List.length_set] using hi)
        have e1 : (setStoredData bc (i+1) d').chain.getD (i+1) dfltBlock =
            { bc.chain.getD (i+1) dfltBlock with data := d' } :=
          getD_set_self _ _ _ _ hi
        have e0 : (setStoredData bc (i+1) d').chain.getD i dfltBlock =
            bc.chain.getD i dfltBlock :=
          getD_set_ne _ _ _ _ _ (by omega)
        rw [e0, e1] at hc
        simp only [blockChecks, Bool.and_eq_true, beq_iff_eq] at hc
        have hc1 : (bc.chain.getD (i+1) dfltBlock).hash =
            hashFn (bc.chain.getD (i+1) dfltBlock).index
              (bc.chain.getD (i+1) dfltBlock).timestamp d'
              (bc.chain.getD (i+1) dfltBlock).previous_hash
              (bc.chain.getD (i+1) dfltBlock).nonce := hc.1.1
        exact hne hc1.symm
  · -- swapping positions p < q
    intro p q hpq hq hv hnd hph
    cases hval : is_chain_valid hashFn (swapEntries bc p q) with
    | false => rfl
    | true =>
        exfalso
        have hp_lt : p < bc.chain.length := by omega
        have hgq : (swapEntries bc p q).chain.getD q dfltBlock = bc.chain.getD p dfltBlock :=
          getD_set_self _ _ _ _ (by simpa [List.length_set] using hq)
        have hgp : (swapEntries bc p q).chain.getD p dfltBlock = bc.chain.getD q dfltBlock := by
          rw [show (swapEntries bc p q).chain =
            (bc.chain.set p (bc.chain.getD q dfltBlock)).set q (bc.chain.getD p dfltBlock)
            from rfl]
          rw [getD_set_ne _ _ _ _ _ (by omega)]
          exact getD_set_self _ _ _ _ hp_lt
        have hother : ∀ r, r ≠ p → r ≠ q →
            (swapEntries bc p q).chain.getD r dfltBlock = bc.chain.getD r dfltBlock := by
          intro r h1 h2
          rw [show (swapEntries bc p q).chain =
            (bc.chain.set p (bc.chain.getD q dfltBlock)).set q (bc.chain.getD p dfltBlock)
            from rfl]
          rw [getD_set_ne _ _ _ _ _ (Ne.symm h2), getD_set_ne _ _ _ _ _ (Ne.symm h1)]
        have hlen : (swapEntries bc p q).chain.length = bc.chain.length := by
          simp [swapEntries, List.length_set]
        rcases Nat.eq_zero_or_pos p with rfl | hp1
        · -- p = 0
          by_cases hq1 : q = 1
          · -- swap of entries 0 and 1: the link check at position 1
            subst hq1
            have hc := (is_chain_valid_iff hashFn _).mp hval 0 (by omega)
            rw [show (0 : ℕ) + 1 = 1 from rfl] at hc
            rw [hgp, hgq] at hc
            simp only [blockChecks, Bool.and_eq_true, beq_iff_eq] at hc
            apply hph
            rw [hc.1.2]
            rw [List.getD_eq_getElem _ _ hq]
            exact List.mem_map_of_mem _ (bc.chain.getElem_mem _)
          · -- q ≥ 2: the link check at position 1
            have hq2 : 2 ≤ q := by omega
            have hc := (is_chain_valid_iff hashFn _).mp hval 0 (by omega)
            rw [show (0 : ℕ) + 1 = 1 from rfl] at hc
            rw [hgp, hother 1 (by omega) (by omega)] at hc
            simp only [blockChecks, Bool.and_eq_true, beq_iff_eq] at hc
            have hl1 := valid_link hashFn bc hv 1 (by omega) (by omega)
            rw [hl1] at hc
            have : (0 : ℕ) = q :=
              hash_pos_inj bc hnd 0 q (by omega) hq hc.1.2
            omega
        · -- p ≥ 1: the link check at position p
          have hc := (is_chain_valid_iff hashFn _).mp hval (p-1) (by omega)
          rw [Nat.sub_add_cancel hp1] at hc
          rw [hgp, hother (p-1) (by omega) (by omega)] at hc
          simp only [blockChecks, Bool.and_eq_true, beq_iff_eq] at hc
          have hlq := valid_link hashFn bc hv q (by omega) hq
          rw [hlq] at hc
          have : q - 1 = p - 1 :=
            hash_pos_inj bc hnd (q-1) (p-1) (by omega) (by omega) hc.1.2
          omega

end LedgerThms3

/-- Witness for `is_chain_valid_spec`: the three-block fixture ledger is
valid, and swapping its two sealed feedback entries breaks validation. -/
theorem is_chain_valid_spec_witness :
    (is_chain_valid testHash ledgerB = true ∧
     (ledgerB.chain.map Block.hash).Nodup ∧
     (ledgerB.chain.getD 0 dfltBlock).previous_hash ∉ ledgerB.chain.map Block.hash) ∧
    is_chain_valid testHash (swapEntries ledgerB 1 2) = false :=
  ⟨⟨by decide, by decide, by decide⟩,
   (is_chain_valid_spec testHash ledgerB).2.2.2 1 2 (by decide) (by decide) (by decide)
     (by decide) (by decide)⟩

/-- Claim C2 counterexample: `is_chain_valid` never recomputes the
genesis entry, so altering the genesis payload of a valid chain — an
alteration the hash recomputation would expose — leaves `is_chain_valid`
returning true. -/
theorem genesis_payload_tamper_counterexample :
    is_chain_valid testHash ledgerB = true ∧
    (setStoredData ledgerB 0 (BlockData.genesis "tampered" "t9")).chain.getD 0 dfltBlock ≠
      ledgerB.chain.getD 0 dfltBlock ∧
    calculate_hash testHash
        ((setStoredData ledgerB 0 (BlockData.genesis "tampered" "t9")).chain.getD 0
          dfltBlock) ≠
      ((setStoredData ledgerB 0 (BlockData.genesis "tampered" "t9")).chain.getD 0
        dfltBlock).hash ∧
    is_chain_valid testHash (setStoredData ledgerB 0 (BlockData.genesis "tampered" "t9")) =
      true :=
  ⟨by decide, by decide, by decide, by decide⟩

/-! ## Feedback statistics theorems -/

/-- Evaluation of `_get_stats_from_memory` in closed form, for any
category filter. -/
theorem get_stats_formula (log : List FeedbackEntry) (cat : Option String) :
    (get_stats_from_memory log cat).total_feedback = (feedback_filter log cat).length ∧
    (get_stats_from_memory log cat).accuracy =
      (((feedback_filter log cat).countP fun f => f.feedback_type == FeedbackType.CORRECT) : ℚ)
        / ((feedback_filter log cat).length : ℚ) ∧
    (get_stats_from_memory log cat).false_positive_rate =
      (((feedback_filter log cat).countP
          fun f => f.feedback_type == FeedbackType.FALSE_POSITIVE) : ℚ)
        / ((feedback_filter log cat).length : ℚ) ∧
    (get_stats_from_memory log cat).false_negative_rate =
      (((feedback_filter log cat).countP
          fun f => f.feedback_type == FeedbackType.FALSE_NEGATIVE) : ℚ)
        / ((feedback_filter log cat).length : ℚ) ∧
    (feedback_filter log cat = [] → get_stats_from_memory log cat = ⟨0, 0, 0, 0⟩) := by
  by_cases hfl : feedback_filter log cat = []
  · rw [get_stats_from_memory]
    simp [hfl]
  · rw [get_stats_from_memory]
    have hpos : 0 < (feedback_filter log cat).length := List.length_pos.mpr hfl
    simp [hfl, hpos]

/-- Claim C9: for every feedback log and category, the computed stats
are exactly the claimed ratios — `total_feedback` is the number of
matching records, `accuracy` the `Correct` share, the false
positive/negative rates the `FalsePositive`/`FalseNegative` shares — all
four zero when no feedback matches; and 3 `Correct` plus 1 `Incorrect`
records give accuracy 0.75. -/
theorem feedback_stats_spec :
    (∀ (log : List FeedbackEntry) (cat : String),
      (get_stats_from_memory log (some cat)).total_feedback =
        (feedback_filter log (some cat)).length ∧
      (get_stats_from_memory log (some cat)).accuracy =
        (((feedback_filter log (some cat)).countP
            fun f => f.feedback_type == FeedbackType.CORRECT) : ℚ)
          / ((feedback_filter log (some cat)).length : ℚ) ∧
      (get_stats_from_memory log (some cat)).false_positive_rate =
        (((feedback_filter log (some cat)).countP
            fun f => f.feedback_type == FeedbackType.FALSE_POSITIVE) : ℚ)
          / ((feedback_filter log (some cat)).length : ℚ) ∧
      (get_stats_from_memory log (some cat)).false_negative_rate =
        (((feedback_filter log (some cat)).countP
            fun f => f.feedback_type == FeedbackType.FALSE_NEGATIVE) : ℚ)
          / ((feedback_filter log (some cat)).length : ℚ) ∧
      (feedback_filter log (some cat) = [] →
        get_stats_from_memory log (some cat) = ⟨0, 0, 0, 0⟩)) ∧
    (get_stats_from_memory
        [mkFeedbackEntry "X" FeedbackType.CORRECT, mkFeedbackEntry "X" FeedbackType.CORRECT,
         mkFeedbackEntry "X" FeedbackType.CORRECT, mkFeedbackEntry "X" FeedbackType.INCORRECT]
        (some "X")).accuracy = 3 / 4 := by
  constructor
  · intro log cat
    exact get_stats_formula log (some cat)
  · have h := (get_stats_formula
      [mkFeedbackEntry "X" FeedbackType.CORRECT, mkFeedbackEntry "X" FeedbackType.CORRECT,
       mkFeedbackEntry "X" FeedbackType.CORRECT, mkFeedbackEntry "X" FeedbackType.INCORRECT]
      (some "X")).2.1
    rw [h]
    have hc : ([mkFeedbackEntry "X" FeedbackType.CORRECT, mkFeedbackEntry "X" FeedbackType.CORRECT,
        mkFeedbackEntry "X" FeedbackType.CORRECT, mkFeedbackEntry "X" FeedbackType.INCORRECT].filter
          fun f => f.category_id == "X").countP
        (fun f => f.feedback_type == FeedbackType.CORRECT) = 3 := by decide
    have hl : ([mkFeedbackEntry "X" FeedbackType.CORRECT, mkFeedbackEntry "X" FeedbackType.CORRECT,
        mkFeedbackEntry "X" FeedbackType.CORRECT, mkFeedbackEntry "X" FeedbackType.INCORRECT].filter
          fun f => f.category_id == "X").length = 4 := by decide
    rw [show feedback_filter
        [mkFeedbackEntry "X" FeedbackType.CORRECT, mkFeedbackEntry "X" FeedbackType.CORRECT,
         mkFeedbackEntry "X" FeedbackType.CORRECT, mkFeedbackEntry "X" FeedbackType.INCORRECT]
        (some "X") =
      [mkFeedbackEntry "X" FeedbackType.CORRECT, mkFeedbackEntry "X" FeedbackType.CORRECT,
       mkFeedbackEntry "X" FeedbackType.CORRECT, mkFeedbackEntry "X" FeedbackType.INCORRECT].filter
        (fun f => f.category_id == "X") from rfl, hc, hl]
    norm_num

/-- Witness for `feedback_stats_spec`: a category with no feedback gets
all-zero stats. -/
theorem feedback_stats_spec_witness :
    feedback_filter [mkFeedbackEntry "X" FeedbackType.CORRECT] (some "Y") = [] ∧
    get_stats_from_memory [mkFeedbackEntry "X" FeedbackType.CORRECT] (some "Y") =
      ⟨0, 0, 0, 0⟩ :=
  ⟨by decide,
   (feedback_stats_spec.1 [mkFeedbackEntry "X" FeedbackType.CORRECT] "Y").2.2.2.2 (by decide)⟩

end TC260
